import Mathlib

/-!
Verification of the calculator state machine implemented in `src/App.tsx`.

The component keeps four pieces of state (`currentOperand`, `previousOperand`,
`operation`, `overwrite`) and mutates them through `clear`, `deleteNumber`,
`appendNumber`, `chooseOperation` and `compute`; a keyboard handler maps key
events onto the same operations, and `formatOperand` renders an operand for
display.  We embed the handlers as pure functions on an explicit state record.

JavaScript strings are sequences of code units; every string manipulated by
this component is a list of characters, which we model as `List Char`.
JavaScript numbers are IEEE-754 doubles; every arithmetic step exercised by the
theorems below (small integer sums, products, divisions by zero, and the
round-to-8-decimal-places step) is exact in double precision, so we model the
numeric domain by exact rational pairs extended with NaN and signed infinities,
and note where the model approximates the double-precision runtime.
-/

namespace Calculator

/-- Strings of the JavaScript runtime, modelled as lists of characters. -/
abbrev Str := List Char

/-! ### The numeric runtime

`Q` is an exact unnormalized fraction `num / den` (`den` is kept positive by
every constructor below).  `JSNum` adds the IEEE special values produced by
`parseFloat` and by division by zero. -/

/-- Exact fraction `num / den`.  Denominators produced by the definitions below
are always positive; fractions are not reduced. -/
structure Q where
  num : Int
  den : Nat
deriving DecidableEq

/-- Sum of two fractions. -/
def Q.add (a b : Q) : Q := ⟨a.num * b.den + b.num * a.den, a.den * b.den⟩

/-- Difference of two fractions. -/
def Q.sub (a b : Q) : Q := ⟨a.num * b.den - b.num * a.den, a.den * b.den⟩

/-- Product of two fractions. -/
def Q.mul (a b : Q) : Q := ⟨a.num * b.num, a.den * b.den⟩

/-- Quotient of two fractions; only used when `b.num ≠ 0`. -/
def Q.div (a b : Q) : Q := ⟨a.num * b.den * b.num.sign, a.den * b.num.natAbs⟩

/-- JavaScript number: NaN, an infinity (`neg` gives the sign), or a finite
value represented exactly. -/
inductive JSNum where
  | nan : JSNum
  | inf (neg : Bool) : JSNum
  | num (q : Q) : JSNum
deriving DecidableEq

/-- Test used to model the `isNaN(x)` checks of the source. -/
def JSNum.isNaN : JSNum → Bool
  | .nan => true
  | _ => false

/-- Addition on JavaScript numbers (`Infinity + -Infinity` is NaN). -/
def jsAdd : JSNum → JSNum → JSNum
  | .nan, _ => .nan
  | _, .nan => .nan
  | .inf s, .inf t => if s = t then .inf s else .nan
  | .inf s, .num _ => .inf s
  | .num _, .inf s => .inf s
  | .num a, .num b => .num (a.add b)

/-- Subtraction on JavaScript numbers. -/
def jsSub : JSNum → JSNum → JSNum
  | .nan, _ => .nan
  | _, .nan => .nan
  | .inf s, .inf t => if s = t then .nan else .inf s
  | .inf s, .num _ => .inf s
  | .num _, .inf s => .inf (!s)
  | .num a, .num b => .num (a.sub b)

/-- Multiplication on JavaScript numbers (`Infinity * 0` is NaN). -/
def jsMul : JSNum → JSNum → JSNum
  | .nan, _ => .nan
  | _, .nan => .nan
  | .inf s, .inf t => if s = t then .inf false else .inf true
  | .inf s, .num b => if b.num = 0 then .nan else if b.num < 0 then .inf (!s) else .inf s
  | .num a, .inf s => if a.num = 0 then .nan else if a.num < 0 then .inf (!s) else .inf s
  | .num a, .num b => .num (a.mul b)

/-- Division on JavaScript numbers: a nonzero finite value divided by zero is a
signed infinity, `0 / 0` is NaN. -/
def jsDiv : JSNum → JSNum → JSNum
  | .nan, _ => .nan
  | _, .nan => .nan
  | .inf _, .inf _ => .nan
  | .inf s, .num b => if b.num < 0 then .inf (!s) else .inf s
  | .num _, .inf _ => .num ⟨0, 1⟩
  | .num a, .num b =>
    if b.num = 0 then
      if a.num = 0 then .nan
      else if a.num < 0 then .inf true else .inf false
    else .num (a.div b)

/-- Rounding used by `Math.round`: `⌊x + 1/2⌋`, computed on the fraction
`n / d` as `fdiv (2n + d) (2d)`.  NaN and infinities are fixed points. -/
def jsRound : JSNum → JSNum
  | .nan => .nan
  | .inf s => .inf s
  | .num a => .num ⟨Int.fdiv (2 * a.num + a.den) (2 * a.den), 1⟩

/-! ### Decimal printing (`Number.prototype.toString`) -/

/-- The ten decimal digit characters. -/
def decDigits : Str := ['0', '1', '2', '3', '4', '5', '6', '7', '8', '9']

/-- Character for the decimal digit `n % 10`. -/
def digitChar (n : Nat) : Char := decDigits.getD (n % 10) '0'

/-- Digit characters of `n`, most significant first; `fuel` bounds the
recursion and `[]` is returned for `n = 0`. -/
def natToDigitsAux : Nat → Nat → Str
  | 0, _ => []
  | fuel + 1, n => if n = 0 then [] else natToDigitsAux fuel (n / 10) ++ [digitChar (n % 10)]

/-- Decimal digit string of a natural number. -/
def natRepr (n : Nat) : Str :=
  if n = 0 then ['0'] else natToDigitsAux (n + 1) n

/-- Decimal digit string of an integer, with a leading sign when negative. -/
def intRepr (n : Int) : Str :=
  if n < 0 then '-' :: natRepr n.natAbs else natRepr n.natAbs

/-- Left-pad a digit string with zeros to length `k`. -/
def padZeros (k : Nat) (l : Str) : Str := List.replicate (k - l.length) '0' ++ l

/-- Remove trailing zero characters. -/
def stripTrailingZeros (l : Str) : Str := (l.reverse.dropWhile (fun c => c == '0')).reverse

/-- Decimal rendering of a finite value, as produced by `toString` on the
values this component computes: every computed value has been rounded to 8
decimal places, so it is `k / 10^8` for an integer `k`, and `toString` prints
its exact decimal expansion with trailing zeros removed (integers print with
no decimal point). -/
def ratToString (q : Q) : Str :=
  let sgn : Str := if q.num < 0 then ['-'] else []
  let a := q.num.natAbs
  let ip := a / q.den
  let rem := a % q.den
  if rem = 0 then sgn ++ natRepr ip
  else sgn ++ natRepr ip ++ '.' :: stripTrailingZeros (padZeros 8 (natRepr (rem * 100000000 / q.den)))

/-- String conversion of a JavaScript number (`String(x)` / `x.toString()`). -/
def numToString : JSNum → Str
  | .nan => "NaN".data
  | .inf true => "-Infinity".data
  | .inf false => "Infinity".data
  | .num q => ratToString q

/-! ### `parseFloat` -/

/-- Decimal digit test on characters. -/
def isDigitChar (c : Char) : Bool := 48 ≤ c.toNat && c.toNat ≤ 57

/-- Whitespace test for the leading-whitespace trim of `parseFloat`. -/
def isSpaceChar (c : Char) : Bool := c == ' ' || c == '\t' || c == '\n' || c == '\r'

/-- Numeric value of a digit character. -/
def digitVal (c : Char) : Nat := c.toNat - 48

/-- Value of a digit string read in base 10. -/
def digitsToNat (l : Str) : Nat := l.foldl (fun acc c => 10 * acc + digitVal c) 0

/-- Exponent digits after an optional sign; an empty digit run contributes
exponent 0 (the exponent suffix is then not part of the parsed prefix). -/
def parseExpDigits (neg : Bool) (l : Str) : Int :=
  let d := l.takeWhile isDigitChar
  if d.isEmpty then 0
  else if neg then -(digitsToNat d : Int) else (digitsToNat d : Int)

/-- Optional exponent suffix `e`/`E` with optional sign. -/
def parseExponent (l : Str) : Int :=
  match l with
  | 'e' :: rest =>
    (match rest with
     | '+' :: r => parseExpDigits false r
     | '-' :: r => parseExpDigits true r
     | r => parseExpDigits false r)
  | 'E' :: rest =>
    (match rest with
     | '+' :: r => parseExpDigits false r
     | '-' :: r => parseExpDigits true r
     | r => parseExpDigits false r)
  | _ => 0

/-- Value `i.f` of the integer digits `d1` and fraction digits `d2`. -/
def mantissa (d1 d2 : Str) : Q :=
  ⟨(digitsToNat d1 * 10 ^ d2.length + digitsToNat d2 : Nat), 10 ^ d2.length⟩

/-- Scale a fraction by `10 ^ e`. -/
def applyExp (q : Q) (e : Int) : Q :=
  if 0 ≤ e then ⟨q.num * (10 ^ e.toNat : Nat), q.den⟩ else ⟨q.num, q.den * 10 ^ (-e).toNat⟩

/-- Final sign application of `parseFloat`. -/
def jsSigned (neg : Bool) (q : Q) : JSNum :=
  JSNum.num (if neg then ⟨-q.num, q.den⟩ else q)

/-- Body of `parseFloat` after sign handling: the literal `Infinity`, or
digits with an optional fraction and exponent; NaN when no digits occur. -/
def parseUnsigned (neg : Bool) (l : Str) : JSNum :=
  if l.take 8 = "Infinity".data then JSNum.inf neg
  else
    match l.dropWhile isDigitChar with
    | '.' :: r2 =>
      if (l.takeWhile isDigitChar).isEmpty && (r2.takeWhile isDigitChar).isEmpty then JSNum.nan
      else
        jsSigned neg (applyExp (mantissa (l.takeWhile isDigitChar) (r2.takeWhile isDigitChar))
          (parseExponent (r2.dropWhile isDigitChar)))
    | r1 =>
      if (l.takeWhile isDigitChar).isEmpty then JSNum.nan
      else
        jsSigned neg (applyExp (mantissa (l.takeWhile isDigitChar) []) (parseExponent r1))

/-- Optional leading sign of a numeric literal. -/
def parseSign : Str → Bool × Str
  | '+' :: rest => (false, rest)
  | '-' :: rest => (true, rest)
  | l => (false, l)

/-- Model of `parseFloat`: trim leading whitespace, read an optional sign,
then the longest numeric-literal prefix; NaN when there is none.  The model
returns the exact rational value of the literal, while the runtime returns
the nearest IEEE-754 double (53-bit mantissa): the two differ on digit
literals of 16 or more digits.  They agree on NaN-ness for every string, and
on the value of every literal whose value is exactly representable — in
particular every digit string of at most 15 digits, whose value is below
`2^53`; the formatting theorem below quantifies only over that range, and
every other theorem evaluates `parseFloat` at short exact literals. -/
def parseFloat (s : Str) : JSNum :=
  let p := parseSign (s.dropWhile isSpaceChar)
  parseUnsigned p.1 p.2

/-! ### Display formatting (`Intl.NumberFormat` for locale `en-US`) -/

/-- Insert a comma after every group of three characters, the input being a
reversed digit string. -/
def groupAux : Nat → Str → Str
  | 0, l => l
  | fuel + 1, a :: b :: c :: d :: rest => a :: b :: c :: ',' :: groupAux fuel (d :: rest)
  | _ + 1, l => l

/-- Group a digit string with thousands separators. -/
def groupDigits (l : Str) : Str := (groupAux l.length l.reverse).reverse

/-- Rendering `Intl.NumberFormat` applies to the parsed integer part of an
operand.  Modelled from the ECMAScript runtime for the values reachable here:
NaN renders as `NaN`, infinities as a signed `∞`, and integers as grouped
digits.  The fraction branch prints the first three fraction digits (the
runtime rounds to at most three fraction digits); no operand reaching this
formatter has a fractional integer part, so that branch is never exercised. -/
def intlFormat : JSNum → Str
  | .nan => "NaN".data
  | .inf true => "-∞".data
  | .inf false => "∞".data
  | .num q =>
    if q.num.natAbs % q.den = 0 then
      (if q.num < 0 then ['-'] else []) ++ groupDigits (natRepr (q.num.natAbs / q.den))
    else
      (if q.num < 0 then ['-'] else []) ++ groupDigits (natRepr (q.num.natAbs / q.den)) ++
        '.' :: stripTrailingZeros (padZeros 3 (natRepr (q.num.natAbs % q.den * 1000 / q.den)))

/-! ### The calculator state machine (`src/App.tsx`) -/

/-- The four state hooks of the component. -/
structure CalcState where
  currentOperand : Str
  previousOperand : Str
  operation : Option Str
  overwrite : Bool
deriving DecidableEq

/-- State at component mount: both operands empty, no operation, overwrite
off. -/
def initState : CalcState := ⟨[], [], none, false⟩

/-- Handler `clear` (`src/App.tsx` lines 21-26): resets all four fields. -/
def clear (_s : CalcState) : CalcState :=
  { currentOperand := [], previousOperand := [], operation := none, overwrite := false }

/-- Handler `deleteNumber` (`src/App.tsx` lines 29-37). -/
def deleteNumber (s : CalcState) : CalcState :=
  if s.overwrite then { s with currentOperand := [], overwrite := false }
  else if s.currentOperand = [] then s
  else { s with currentOperand := s.currentOperand.dropLast }

/-- Handler `appendNumber` (`src/App.tsx` lines 40-56). -/
def appendNumber (number : Str) (s : CalcState) : CalcState :=
  if number = ['.'] ∧ s.currentOperand.contains '.' then s
  else if s.overwrite then { s with currentOperand := number, overwrite := false }
  else if number = ['0'] ∧ s.currentOperand = ['0'] then s
  else if number = ['.'] ∧ s.currentOperand = [] then { s with currentOperand := ['0', '.'] }
  else { s with currentOperand := s.currentOperand ++ number }

/-- The `switch (operation)` arithmetic shared verbatim by `compute`
(`src/App.tsx` lines 66-82) and `chooseOperation` (lines 107-114): `none` is
returned exactly when the handler returns early from the `default` case. -/
def applyOperation (operation : Option Str) (prev current : JSNum) : Option JSNum :=
  match operation with
  | some op =>
    if op = ['+'] then some (jsAdd prev current)
    else if op = ['-'] then some (jsSub prev current)
    else if op = ['*'] then some (jsMul prev current)
    else if op = ['÷'] ∨ op = ['/'] then some (jsDiv prev current)
    else none
  | none => none

/-- The float-noise suppression step
`Math.round(computation * 100000000) / 100000000`. -/
def roundResult (c : JSNum) : JSNum :=
  jsDiv (jsRound (jsMul c (JSNum.num ⟨100000000, 1⟩))) (JSNum.num ⟨100000000, 1⟩)

/-- Handler `compute` (`src/App.tsx` lines 59-91); the source binds
`parseFloat(previousOperand)` and `parseFloat(currentOperand)` to the
constants `prev` and `current`, inlined here. -/
def compute (s : CalcState) : CalcState :=
  if (parseFloat s.previousOperand).isNaN || (parseFloat s.currentOperand).isNaN then s
  else
    match applyOperation s.operation (parseFloat s.previousOperand)
        (parseFloat s.currentOperand) with
    | none => s
    | some c =>
      { currentOperand := numToString (roundResult c), previousOperand := [],
        operation := none, overwrite := true }

/-- Handler `chooseOperation` (`src/App.tsx` lines 94-126); the constants
`prev` and `current` of the folding branch are inlined as in `compute`. -/
def chooseOperation (op : Str) (s : CalcState) : CalcState :=
  if s.currentOperand = [] then s
  else if s.previousOperand ≠ [] then
    if !(parseFloat s.previousOperand).isNaN && !(parseFloat s.currentOperand).isNaN then
      match applyOperation s.operation (parseFloat s.previousOperand)
          (parseFloat s.currentOperand) with
      | none => s
      | some c =>
        { currentOperand := [], previousOperand := numToString (roundResult c),
          operation := some op, overwrite := s.overwrite }
    else
      { s with previousOperand := s.currentOperand, operation := some op, currentOperand := [] }
  else
    { s with previousOperand := s.currentOperand, operation := some op, currentOperand := [] }

/-- Display formatter `formatOperand` (`src/App.tsx` lines 11-18): splits the
operand at the first `.`; the destructured second element of
`operand.split('.')` runs up to the next `.`. -/
def formatOperand (operand : Str) : Option Str :=
  if operand = [] then none
  else
    match operand.dropWhile (fun c => c != '.') with
    | [] => some (intlFormat (parseFloat (operand.takeWhile (fun c => c != '.'))))
    | _ :: tail =>
      some (intlFormat (parseFloat (operand.takeWhile (fun c => c != '.'))) ++
        '.' :: tail.takeWhile (fun c => c != '.'))

/-! ### The keyboard adapter -/

/-- JavaScript string comparison `a < b` (lexicographic on code units). -/
def jsLt : Str → Str → Bool
  | [], [] => false
  | [], _ :: _ => true
  | _ :: _, [] => false
  | a :: as, b :: bs => if a < b then true else if b < a then false else jsLt as bs

/-- JavaScript string comparison `a <= b`. -/
def jsLe (a b : Str) : Bool := ! jsLt b a

/-- Handler `handleKeyDown` (`src/App.tsx` lines 131-148). -/
def handleKeyDown (key : Str) (s : CalcState) : CalcState :=
  if jsLe "0".data key && jsLe key "9".data then appendNumber key s
  else if key = ".".data then appendNumber ".".data s
  else if key = "=".data ∨ key = "Enter".data then compute s
  else if key = "Backspace".data then deleteNumber s
  else if key = "Escape".data then clear s
  else if key = "+".data ∨ key = "-".data ∨ key = "*".data ∨ key = "/".data then
    chooseOperation (if key = "/".data then "÷".data else key) s
  else s

/-! ### Reachable states

The UI invokes `appendNumber` only with the ten digits and `.` (buttons and
digit keys), and `chooseOperation` only with `+`, `-`, `*`, `÷` (buttons; the
keyboard translates `/` to `÷` before the call). -/

/-- Arguments the UI passes to `appendNumber`. -/
def buttonDigits : List Str :=
  [['0'], ['1'], ['2'], ['3'], ['4'], ['5'], ['6'], ['7'], ['8'], ['9'], ['.']]

/-- Arguments the UI passes to `chooseOperation`. -/
def buttonOps : List Str := [['+'], ['-'], ['*'], ['÷']]

/-- One user interaction. -/
inductive Step : CalcState → CalcState → Prop where
  | clearStep (s : CalcState) : Step s (clear s)
  | deleteStep (s : CalcState) : Step s (deleteNumber s)
  | appendStep (s : CalcState) (d : Str) (h : d ∈ buttonDigits) : Step s (appendNumber d s)
  | chooseStep (s : CalcState) (op : Str) (h : op ∈ buttonOps) : Step s (chooseOperation op s)
  | computeStep (s : CalcState) : Step s (compute s)

/-- States reachable from the mount state by user interactions. -/
inductive Reachable : CalcState → Prop where
  | init : Reachable initState
  | step {s t : CalcState} : Reachable s → Step s t → Reachable t

/-! ### Lemmas about decimal printing -/

theorem digitChar_mem_decDigits (n : Nat) : digitChar n ∈ decDigits := by
  have h : n % 10 < decDigits.length := Nat.mod_lt n (by decide)
  rw [digitChar, List.getD_eq_getElem _ _ h]
  exact List.getElem_mem h

theorem mem_natToDigitsAux {c : Char} :
    ∀ fuel n : Nat, c ∈ natToDigitsAux fuel n → c ∈ decDigits := by
  intro fuel
  induction fuel with
  | zero => intro n h; simp [natToDigitsAux] at h
  | succ fuel ih =>
    intro n h
    rw [natToDigitsAux] at h
    by_cases hn : n = 0
    · simp [hn] at h
    · rw [if_neg hn] at h
      rcases List.mem_append.mp h with h1 | h1
      · exact ih _ h1
      · rcases List.mem_singleton.mp h1 with rfl
        exact digitChar_mem_decDigits _

theorem mem_natRepr {c : Char} {n : Nat} (h : c ∈ natRepr n) : c ∈ decDigits := by
  rw [natRepr] at h
  by_cases hn : n = 0
  · rw [if_pos hn] at h
    rcases List.mem_singleton.mp h with rfl
    decide
  · rw [if_neg hn] at h
    exact mem_natToDigitsAux _ _ h

theorem natRepr_ne_nil (n : Nat) : natRepr n ≠ [] := by
  rw [natRepr]
  by_cases hn : n = 0
  · simp [hn]
  · rw [if_neg hn]
    rw [natToDigitsAux, if_neg hn]
    simp

theorem count_dot_natRepr (n : Nat) : (natRepr n).count '.' = 0 := by
  rw [List.count_eq_zero]
  intro h
  have := mem_natRepr h
  simp [decDigits] at this

theorem mem_padZeros {c : Char} {k : Nat} {l : Str} (h : c ∈ padZeros k l) :
    c = '0' ∨ c ∈ l := by
  rw [padZeros] at h
  rcases List.mem_append.mp h with h1 | h1
  · exact Or.inl (List.eq_of_mem_replicate h1)
  · exact Or.inr h1

theorem mem_stripTrailingZeros {c : Char} {l : Str} (h : c ∈ stripTrailingZeros l) :
    c ∈ l := by
  rw [stripTrailingZeros] at h
  rw [List.mem_reverse] at h
  have := (List.dropWhile_sublist _).mem h
  rwa [List.mem_reverse] at this

theorem count_dot_ratToString (q : Q) : (ratToString q).count '.' ≤ 1 := by
  rw [ratToString]
  by_cases hr : q.num.natAbs % q.den = 0
  · rw [if_pos hr]
    have h1 : (if q.num < 0 then ['-'] else ([] : Str)).count '.' = 0 := by
      split <;> decide
    simp only [List.count_append, h1, count_dot_natRepr]
    omega
  · rw [if_neg hr]
    have h1 : (if q.num < 0 then ['-'] else ([] : Str)).count '.' = 0 := by
      split <;> decide
    have h2 : (stripTrailingZeros (padZeros 8
        (natRepr (q.num.natAbs % q.den * 100000000 / q.den)))).count '.' = 0 := by
      rw [List.count_eq_zero]
      intro hmem
      rcases mem_padZeros (mem_stripTrailingZeros hmem) with h3 | h3
      · exact absurd h3 (by decide)
      · have := mem_natRepr h3
        simp [decDigits] at this
    simp only [List.count_append, List.count_cons_self, h1, h2, count_dot_natRepr]
    omega

theorem ratToString_ne_nil (q : Q) : ratToString q ≠ [] := by
  rw [ratToString]
  by_cases hr : q.num.natAbs % q.den = 0
  · rw [if_pos hr]
    intro h
    rcases List.append_eq_nil.mp h with ⟨-, h2⟩
    exact natRepr_ne_nil _ h2
  · rw [if_neg hr]
    intro h
    rcases List.append_eq_nil.mp h with ⟨-, h2⟩
    exact List.cons_ne_nil _ _ h2

theorem numToString_ne_nil (x : JSNum) : numToString x ≠ [] := by
  cases x with
  | nan => decide
  | inf neg => cases neg <;> decide
  | num q => exact ratToString_ne_nil q

theorem count_dot_numToString (x : JSNum) : (numToString x).count '.' ≤ 1 := by
  cases x with
  | nan => decide
  | inf neg => cases neg <;> decide
  | num q => exact count_dot_ratToString q

/-! ### Shapes of the handler results -/

theorem deleteNumber_previousOperand (s : CalcState) :
    (deleteNumber s).previousOperand = s.previousOperand := by
  rw [deleteNumber]; split_ifs <;> rfl

theorem deleteNumber_operation (s : CalcState) :
    (deleteNumber s).operation = s.operation := by
  rw [deleteNumber]; split_ifs <;> rfl

theorem appendNumber_previousOperand (d : Str) (s : CalcState) :
    (appendNumber d s).previousOperand = s.previousOperand := by
  rw [appendNumber]; split_ifs <;> rfl

theorem appendNumber_operation (d : Str) (s : CalcState) :
    (appendNumber d s).operation = s.operation := by
  rw [appendNumber]; split_ifs <;> rfl

theorem compute_cases (s : CalcState) :
    compute s = s ∨ ∃ r : JSNum, compute s = ⟨numToString r, [], none, true⟩ := by
  rw [compute]
  split
  · exact Or.inl rfl
  · split
    · exact Or.inl rfl
    · exact Or.inr ⟨_, rfl⟩

theorem chooseOperation_cases (op : Str) (s : CalcState) :
    chooseOperation op s = s ∨
      (s.currentOperand ≠ [] ∧
        ((∃ r : JSNum, chooseOperation op s =
            ⟨[], numToString r, some op, s.overwrite⟩) ∨
          chooseOperation op s =
            { s with previousOperand := s.currentOperand, operation := some op,
                     currentOperand := [] })) := by
  rw [chooseOperation]
  split
  · exact Or.inl rfl
  · rename_i hcur
    split
    · split
      · split
        · exact Or.inl rfl
        · exact Or.inr ⟨hcur, Or.inl ⟨_, rfl⟩⟩
      · exact Or.inr ⟨hcur, Or.inr rfl⟩
    · exact Or.inr ⟨hcur, Or.inr rfl⟩

/-! ### Invariants preserved by every interaction -/

/-- Claim C6 invariant: a pending operation implies a non-empty previous
operand. -/
def OpInv (s : CalcState) : Prop :=
  ∀ op : Str, s.operation = some op → s.previousOperand ≠ []

/-- Claim C7 invariant (amended): each operand contains at most one `.`. -/
def DotInv (s : CalcState) : Prop :=
  s.currentOperand.count '.' ≤ 1 ∧ s.previousOperand.count '.' ≤ 1

theorem opInv_clear (s : CalcState) : OpInv (clear s) := by
  intro op hop
  simp [clear] at hop

theorem opInv_deleteNumber {s : CalcState} (h : OpInv s) : OpInv (deleteNumber s) := by
  intro op hop
  rw [deleteNumber_operation] at hop
  rw [deleteNumber_previousOperand]
  exact h op hop

theorem opInv_appendNumber {s : CalcState} (d : Str) (h : OpInv s) :
    OpInv (appendNumber d s) := by
  intro op hop
  rw [appendNumber_operation] at hop
  rw [appendNumber_previousOperand]
  exact h op hop

theorem opInv_compute {s : CalcState} (h : OpInv s) : OpInv (compute s) := by
  rcases compute_cases s with hc | ⟨r, hc⟩
  · rwa [hc]
  · intro op hop
    rw [hc] at hop
    simp at hop

theorem opInv_chooseOperation {s : CalcState} (op : Str) (h : OpInv s) :
    OpInv (chooseOperation op s) := by
  rcases chooseOperation_cases op s with hc | ⟨hcur, hr | hc⟩
  · rwa [hc]
  · rcases hr with ⟨r, hc⟩
    intro op2 hop
    rw [hc]
    exact numToString_ne_nil r
  · intro op2 hop
    rw [hc]
    exact hcur

/-- The C6 invariant holds in every reachable state. -/
theorem opInv_reachable {s : CalcState} (h : Reachable s) : OpInv s := by
  induction h with
  | init => intro op hop; simp [initState] at hop
  | step _ hstep ih =>
    cases hstep with
    | clearStep => exact opInv_clear _
    | deleteStep => exact opInv_deleteNumber ih
    | appendStep d hd => exact opInv_appendNumber d ih
    | chooseStep op hop => exact opInv_chooseOperation op ih
    | computeStep => exact opInv_compute ih

theorem dotInv_clear (s : CalcState) : DotInv (clear s) := by
  constructor <;> simp [clear]

theorem dotInv_deleteNumber {s : CalcState} (h : DotInv s) : DotInv (deleteNumber s) := by
  rcases h with ⟨h1, h2⟩
  refine ⟨?_, by rwa [deleteNumber_previousOperand]⟩
  rw [deleteNumber]
  split_ifs
  · simp
  · exact h1
  · exact le_trans ((List.dropLast_sublist _).count_le '.') h1

theorem dotInv_appendNumber {s : CalcState} {d : Str} (hd : d ∈ buttonDigits)
    (h : DotInv s) : DotInv (appendNumber d s) := by
  rcases h with ⟨h1, h2⟩
  refine ⟨?_, by rwa [appendNumber_previousOperand]⟩
  rw [appendNumber]
  split_ifs with g1 g2 g3 g4
  · exact h1
  · show d.count '.' ≤ 1
    fin_cases hd <;> decide
  · exact h1
  · show List.count '.' ['0', '.'] ≤ 1
    decide
  · show (s.currentOperand ++ d).count '.' ≤ 1
    rw [List.count_append]
    by_cases hdot : d = ['.']
    · subst hdot
      have hnc : ¬ s.currentOperand.contains '.' = true := fun hc => g1 ⟨rfl, hc⟩
      have hnm : '.' ∉ s.currentOperand := by
        intro hm
        exact hnc (by simpa [List.contains] using List.elem_iff.mpr hm)
      rw [List.count_eq_zero.mpr hnm]
      decide
    · have hz : d.count '.' = 0 := by
        fin_cases hd <;> first | (exfalso; exact hdot rfl) | decide
      omega

theorem dotInv_compute {s : CalcState} (h : DotInv s) : DotInv (compute s) := by
  rcases compute_cases s with hc | ⟨r, hc⟩
  · rwa [hc]
  · rw [hc]
    exact ⟨count_dot_numToString r, by simp⟩

theorem dotInv_chooseOperation {s : CalcState} (op : Str) (h : DotInv s) :
    DotInv (chooseOperation op s) := by
  rcases chooseOperation_cases op s with hc | ⟨hcur, ⟨r, hc⟩ | hc⟩
  · rwa [hc]
  · rw [hc]
    exact ⟨by simp, count_dot_numToString r⟩
  · rw [hc]
    exact ⟨by simp, h.1⟩

/-- The amended C7 invariant holds in every reachable state. -/
theorem dotInv_reachable {s : CalcState} (h : Reachable s) : DotInv s := by
  induction h with
  | init => exact ⟨by decide, by decide⟩
  | step _ hstep ih =>
    cases hstep with
    | clearStep => exact dotInv_clear _
    | deleteStep => exact dotInv_deleteNumber ih
    | appendStep d hd => exact dotInv_appendNumber hd ih
    | chooseStep op hop => exact dotInv_chooseOperation op ih
    | computeStep => exact dotInv_compute ih

/-! ### Parsing and formatting of digit strings -/

theorem digit_toNat_bounds {c : Char} (h : isDigitChar c = true) :
    48 ≤ c.toNat ∧ c.toNat ≤ 57 := by
  rw [isDigitChar, Bool.and_eq_true, decide_eq_true_iff, decide_eq_true_iff] at h
  exact h

theorem ne_of_digit_toNat {c d : Char} (h : isDigitChar c = true)
    (hd : d.toNat < 48 ∨ 57 < d.toNat) : c ≠ d := by
  rcases digit_toNat_bounds h with ⟨h1, h2⟩
  intro he
  subst he
  omega

theorem isSpaceChar_eq_false_of_digit {c : Char} (h : isDigitChar c = true) :
    isSpaceChar c = false := by
  have h1 : c ≠ ' ' := ne_of_digit_toNat h (by decide)
  have h2 : c ≠ '\t' := ne_of_digit_toNat h (by decide)
  have h3 : c ≠ '\n' := ne_of_digit_toNat h (by decide)
  have h4 : c ≠ '\r' := ne_of_digit_toNat h (by decide)
  simp [isSpaceChar, h1, h2, h3, h4]

theorem parseSign_of_digit {c : Char} {cs : Str} (h : isDigitChar c = true) :
    parseSign (c :: cs) = (false, c :: cs) := by
  have h1 : c ≠ '+' := ne_of_digit_toNat h (by decide)
  have h2 : c ≠ '-' := ne_of_digit_toNat h (by decide)
  unfold parseSign
  split
  · rename_i heq
    injection heq with heq1
    exact absurd heq1 h1
  · rename_i heq
    injection heq with heq1
    exact absurd heq1 h2
  · rfl

theorem take_ne_infinity {c : Char} {cs : Str} (h : isDigitChar c = true) :
    ¬ (c :: cs).take 8 = "Infinity".data := by
  intro he
  rw [List.take_succ_cons] at he
  have hI : "Infinity".data = 'I' :: "nfinity".data := by decide
  rw [hI] at he
  injection he with he1
  exact ne_of_digit_toNat h (by decide) he1

theorem parseFloat_digits {l : Str} (hne : l ≠ [])
    (hd : ∀ c ∈ l, isDigitChar c = true) :
    parseFloat l = JSNum.num ⟨(digitsToNat l : Int), 1⟩ := by
  obtain ⟨c, cs, rfl⟩ := List.exists_cons_of_ne_nil hne
  have hc := hd c (List.mem_cons_self c cs)
  rw [parseFloat, List.dropWhile_cons, isSpaceChar_eq_false_of_digit hc]
  simp only [Bool.false_eq_true, if_false]
  rw [parseSign_of_digit hc]
  rw [parseUnsigned, if_neg (take_ne_infinity hc)]
  have ht : (c :: cs).takeWhile isDigitChar = c :: cs := List.takeWhile_eq_self_iff.mpr hd
  have hw : (c :: cs).dropWhile isDigitChar = [] := List.dropWhile_eq_nil_iff.mpr hd
  rw [ht, hw]
  have hemp : (c :: cs).isEmpty = false := rfl
  simp only [hemp, Bool.false_eq_true, if_false]
  have hexp : parseExponent ([] : Str) = 0 := rfl
  simp [jsSigned, applyExp, mantissa, hexp]
  rfl

theorem intlFormat_natCast (n : Nat) :
    intlFormat (.num ⟨(n : Int), 1⟩) = groupDigits (natRepr n) := by
  have h0 : ¬ ((n : Int) < 0) := by omega
  rw [intlFormat]
  simp [Int.natAbs_ofNat, Nat.mod_one, Nat.div_one, h0]

/-! ### Formatting claim C9: the spec side

The spec describes the display formatting as rendering the integer part with
thousands separators and preserving the decimal digits verbatim. -/

/-- Modelled from the spec: the rendering with thousands separators of the
integer part of an operand, read as a number (an empty integer part renders as
nothing). -/
def specIntRender (integer : Str) : Str :=
  if integer = [] then [] else groupDigits (natRepr (digitsToNat integer))

/-- Modelled from the spec: formatting renders the integer part with
thousands separators and, when a decimal point is present, appends `.` and
the decimal digits unchanged. -/
def specFormatOperand (operand : Str) : Option Str :=
  if operand = [] then none
  else
    match operand.dropWhile (fun c => c != '.') with
    | [] => some (specIntRender (operand.takeWhile (fun c => c != '.')))
    | _ :: tail => some (specIntRender (operand.takeWhile (fun c => c != '.')) ++ '.' :: tail)

/-! ### Distinguished reachable states -/

/-- State after the interaction sequence 2, +, 3, =, +: `compute` left the
overwrite flag set and `chooseOperation` cleared the current operand without
clearing the flag. -/
def afterComputeChoose : CalcState := ⟨[], ['5'], some ['+'], true⟩

theorem reachable_afterComputeChoose : Reachable afterComputeChoose := by
  have h1 : Reachable (appendNumber ['2'] initState) :=
    .step .init (.appendStep _ _ (by decide))
  have h2 : Reachable (chooseOperation ['+'] (appendNumber ['2'] initState)) :=
    .step h1 (.chooseStep _ _ (by decide))
  have h3 : Reachable (appendNumber ['3']
      (chooseOperation ['+'] (appendNumber ['2'] initState))) :=
    .step h2 (.appendStep _ _ (by decide))
  have h4 : Reachable (compute (appendNumber ['3']
      (chooseOperation ['+'] (appendNumber ['2'] initState)))) :=
    .step h3 (.computeStep _)
  have h5 : Reachable (chooseOperation ['+'] (compute (appendNumber ['3']
      (chooseOperation ['+'] (appendNumber ['2'] initState))))) :=
    .step h4 (.chooseStep _ _ (by decide))
  have he : chooseOperation ['+'] (compute (appendNumber ['3']
      (chooseOperation ['+'] (appendNumber ['2'] initState)))) = afterComputeChoose := by decide
  exact he ▸ h5

/-- State after the interaction sequence 2, -, 3. -/
def beforeSubtract : CalcState := ⟨['3'], ['2'], some ['-'], false⟩

theorem reachable_beforeSubtract : Reachable beforeSubtract := by
  have h1 : Reachable (appendNumber ['2'] initState) :=
    .step .init (.appendStep _ _ (by decide))
  have h2 : Reachable (chooseOperation ['-'] (appendNumber ['2'] initState)) :=
    .step h1 (.chooseStep _ _ (by decide))
  have h3 : Reachable (appendNumber ['3']
      (chooseOperation ['-'] (appendNumber ['2'] initState))) :=
    .step h2 (.appendStep _ _ (by decide))
  have he : appendNumber ['3'] (chooseOperation ['-'] (appendNumber ['2'] initState))
      = beforeSubtract := by decide
  exact he ▸ h3

/-- State whose current operand is the lone decimal point, after the
interaction sequence 2, +, 3, =, +, `.`. -/
def dotOperandState : CalcState := ⟨['.'], ['5'], some ['+'], false⟩

theorem reachable_dotOperandState : Reachable dotOperandState := by
  have h1 : Reachable (appendNumber ['.'] afterComputeChoose) :=
    .step reachable_afterComputeChoose (.appendStep _ _ (by decide))
  have he : appendNumber ['.'] afterComputeChoose = dotOperandState := by decide
  exact he ▸ h1

/-! ### Comparison facts for the keyboard adapter -/

theorem jsLt_single (a b : Char) :
    jsLt [a] [b] = if a < b then true else false := by
  rw [jsLt]
  split_ifs with h1 h2 <;> rfl

theorem jsLe_single (a b : Char) : jsLe [a] [b] = !(if b < a then true else false) := by
  rw [jsLe, jsLt_single]

theorem jsLt_nine_of_upper {c : Char} {t : Str} (h : 'A' ≤ c) :
    jsLt ['9'] (c :: t) = true := by
  rw [jsLt]
  have h9 : '9' < c := lt_of_lt_of_le (by decide) h
  rw [if_pos h9]

/-! ### Operand shape asserted by the spec data model (claim C7) -/

/-- Operand shape from the spec data model: only digit characters and at most
one decimal point. -/
def OperandShape (l : Str) : Prop :=
  (∀ c ∈ l, isDigitChar c = true ∨ c = '.') ∧ l.count '.' ≤ 1

instance (l : Str) : Decidable (OperandShape l) := by
  unfold OperandShape
  infer_instance

/-! ### The claims -/

/-- Claim C1: for the state previousOperand="2", operation="+",
currentOperand="3" and either overwrite value, `compute()` yields
currentOperand="5", previousOperand="", operation unset, and
overwrite=true. -/
theorem c1_compute_two_plus_three :
    ∀ ow : Bool, compute ⟨['3'], ['2'], some ['+'], ow⟩ = ⟨['5'], [], none, true⟩ := by
  decide

/-- Claim C2: chained `chooseOperation` folds strictly left-to-right: after
entering 2, +, 3, the press of `*` folds to previousOperand="5" with
operation `*`, and after entering 4, `compute()` yields
currentOperand="20". -/
theorem c2_chained_choose_folds_left :
    chooseOperation ['*']
        (appendNumber ['3'] (chooseOperation ['+'] (appendNumber ['2'] initState)))
      = ⟨[], ['5'], some ['*'], false⟩ ∧
    compute (appendNumber ['4'] (chooseOperation ['*']
        (appendNumber ['3'] (chooseOperation ['+'] (appendNumber ['2'] initState)))))
      = ⟨['2', '0'], [], none, true⟩ := by
  decide

/-- Claim C3, counterexample: the state after 2, +, 3, =, + is reachable, has
an empty current operand, and `appendNumber "."` turns it into "." rather
than the claimed "0." (the overwrite flag is still set, so the digit replaces
the operand before the empty-operand check runs). -/
theorem c3_counterexample_append_dot_overwrite :
    Reachable afterComputeChoose ∧
    afterComputeChoose.currentOperand = [] ∧
    (appendNumber ['.'] afterComputeChoose).currentOperand = ['.'] ∧
    (appendNumber ['.'] afterComputeChoose).currentOperand ≠ ['0', '.'] :=
  ⟨reachable_afterComputeChoose, by decide, by decide, by decide⟩

/-- Claim C3, amended: on a state with empty current operand,
`appendNumber "."` yields "0." when the overwrite flag is clear, and yields
"." (clearing the flag) when the overwrite flag is set, as it is after
`compute` followed by `chooseOperation`. -/
theorem c3_amended_append_dot_on_empty :
    ∀ s : CalcState, s.currentOperand = [] →
      ((s.overwrite = false →
          appendNumber ['.'] s = { s with currentOperand := ['0', '.'] }) ∧
        (s.overwrite = true →
          appendNumber ['.'] s = { s with currentOperand := ['.'], overwrite := false })) := by
  intro s h
  constructor
  · intro how
    simp [appendNumber, h, how]
  · intro how
    simp [appendNumber, h, how]

/-- Claim C3, witness: the amended statement evaluated on the mount state and
on the reachable overwrite state after 2, +, 3, =, +. -/
theorem c3_witness_append_dot :
    appendNumber ['.'] initState = { initState with currentOperand := ['0', '.'] } ∧
    appendNumber ['.'] afterComputeChoose
      = { afterComputeChoose with currentOperand := ['.'], overwrite := false } :=
  ⟨(c3_amended_append_dot_on_empty initState rfl).1 rfl,
    (c3_amended_append_dot_on_empty afterComputeChoose rfl).2 rfl⟩

/-- Claim C4: `compute()` is a no-op, leaving all four state fields
unchanged, whenever either operand fails to parse as a number. -/
theorem c4_compute_noop_on_nan :
    ∀ s : CalcState,
      (parseFloat s.previousOperand).isNaN = true ∨
        (parseFloat s.currentOperand).isNaN = true →
      compute s = s := by
  intro s h
  rcases h with h | h <;> simp [compute, h]

/-- Claim C4, witness: at the mount state both operands are empty, the empty
string parses as NaN, and `compute` changes nothing. -/
theorem c4_witness_compute_noop :
    (parseFloat initState.previousOperand).isNaN = true ∧ compute initState = initState :=
  ⟨by decide, c4_compute_noop_on_nan initState (Or.inl (by decide))⟩

/-- Claim C5: `deleteNumber` clears the current operand and the overwrite
flag when the flag is set (rather than trimming a character); otherwise it
removes the trailing character, and is a no-op on an empty operand. -/
theorem c5_deleteNumber_spec :
    ∀ s : CalcState,
      (s.overwrite = true →
        deleteNumber s = { s with currentOperand := [], overwrite := false }) ∧
      (s.overwrite = false → s.currentOperand ≠ [] →
        deleteNumber s = { s with currentOperand := s.currentOperand.dropLast }) ∧
      (s.overwrite = false → s.currentOperand = [] → deleteNumber s = s) := by
  intro s
  refine ⟨?_, ?_, ?_⟩
  · intro h
    rw [deleteNumber, if_pos h]
  · intro h1 h2
    rw [deleteNumber, if_neg (by simp [h1]), if_neg h2]
  · intro h1 h2
    rw [deleteNumber, if_neg (by simp [h1]), if_pos h2]

/-- Claim C5, witness: the three cases evaluated on concrete states — a
result state with overwrite set, a two-character operand, and the mount
state. -/
theorem c5_witness_deleteNumber :
    deleteNumber ⟨['5'], [], none, true⟩ = ⟨[], [], none, false⟩ ∧
    deleteNumber ⟨['1', '2'], [], none, false⟩ = ⟨['1'], [], none, false⟩ ∧
    deleteNumber initState = initState :=
  ⟨(c5_deleteNumber_spec ⟨['5'], [], none, true⟩).1 rfl,
    (c5_deleteNumber_spec ⟨['1', '2'], [], none, false⟩).2.1 rfl (by decide),
    (c5_deleteNumber_spec initState).2.2 rfl rfl⟩

/-- Claim C6: in every reachable state, a pending operation implies a
non-empty previous operand. -/
theorem c6_operation_implies_previous_nonempty :
    ∀ s : CalcState, Reachable s →
      ∀ op : Str, s.operation = some op → s.previousOperand ≠ [] :=
  fun _s h => opInv_reachable h

/-- Claim C6, witness: the reachable state after 2, +, 3, =, + has a pending
operation and a non-empty previous operand. -/
theorem c6_witness_operation_previous : afterComputeChoose.previousOperand ≠ [] :=
  c6_operation_implies_previous_nonempty afterComputeChoose
    reachable_afterComputeChoose ['+'] rfl

/-- Claim C7, counterexample: the reachable state 2, -, 3 computes to the
stored result "-1", whose leading sign character is neither a digit nor a
decimal point. -/
theorem c7_counterexample_operand_shape :
    Reachable beforeSubtract ∧
    compute beforeSubtract = ⟨['-', '1'], [], none, true⟩ ∧
    ¬ OperandShape ['-', '1'] :=
  ⟨reachable_beforeSubtract, by decide, by decide⟩

/-- Claim C7, amended: every reachable state has at most one decimal point in
each operand; the digits-only part of the claimed invariant fails for results
stored by `compute`, which can carry a sign (or read `Infinity`). -/
theorem c7_amended_dot_invariant :
    ∀ s : CalcState, Reachable s →
      s.currentOperand.count '.' ≤ 1 ∧ s.previousOperand.count '.' ≤ 1 :=
  fun _s h => dotInv_reachable h

/-- Claim C7, witness: the amended invariant evaluated at the reachable state
2, -, 3. -/
theorem c7_witness_dot_invariant :
    beforeSubtract.currentOperand.count '.' ≤ 1 ∧
      beforeSubtract.previousOperand.count '.' ≤ 1 :=
  c7_amended_dot_invariant beforeSubtract reachable_beforeSubtract

/-! ### Keyboard adapter claim C8 -/

/-- The ten digit keys. -/
def digitKeys : List Str :=
  [['0'], ['1'], ['2'], ['3'], ['4'], ['5'], ['6'], ['7'], ['8'], ['9']]

/-- Keys not handled by the adapter.  A DOM key value is either a single
character or one of the named key values (`Shift`, `Tab`, `F1`, ...), all of
which begin with an uppercase ASCII letter. -/
def OtherKey (k : Str) : Prop :=
  (∃ c : Char, k = [c] ∧ ¬ ('0' ≤ c ∧ c ≤ '9') ∧ c ∉ ['.', '=', '+', '-', '*', '/']) ∨
  (∃ (c : Char) (t : Str), k = c :: t ∧ t ≠ [] ∧ 'A' ≤ c ∧ c ≤ 'Z' ∧
    k ≠ "Enter".data ∧ k ≠ "Backspace".data ∧ k ≠ "Escape".data)

theorem single_op_contra {c : Char} (hnotin : c ∉ ['.', '=', '+', '-', '*', '/'])
    (h : [c] = "+".data ∨ [c] = "-".data ∨ [c] = "*".data ∨ [c] = "/".data) : False := by
  rcases h with h | h | h | h
  · have hx : [c] = ['+'] := h
    injection hx with hc
    exact hnotin (by simp [hc])
  · have hx : [c] = ['-'] := h
    injection hx with hc
    exact hnotin (by simp [hc])
  · have hx : [c] = ['*'] := h
    injection hx with hc
    exact hnotin (by simp [hc])
  · have hx : [c] = ['/'] := h
    injection hx with hc
    exact hnotin (by simp [hc])

theorem named_op_contra {c : Char} {t : Str} (ht : t ≠ [])
    (h : c :: t = "+".data ∨ c :: t = "-".data ∨ c :: t = "*".data ∨ c :: t = "/".data) :
    False := by
  rcases h with h | h | h | h
  · have hx : c :: t = ['+'] := h
    injection hx with hc htx
    exact ht htx
  · have hx : c :: t = ['-'] := h
    injection hx with hc htx
    exact ht htx
  · have hx : c :: t = ['*'] := h
    injection hx with hc htx
    exact ht htx
  · have hx : c :: t = ['/'] := h
    injection hx with hc htx
    exact ht htx

theorem handleKeyDown_other_single {c : Char} (hno : ¬ ('0' ≤ c ∧ c ≤ '9'))
    (hnotin : c ∉ ['.', '=', '+', '-', '*', '/']) (s : CalcState) :
    handleKeyDown [c] s = s := by
  rw [handleKeyDown]
  split_ifs with h1 h2 h3 h4 h5 h6 h7
  · exfalso
    rw [Bool.and_eq_true] at h1
    rcases not_and_or.mp hno with h | h
    · have hlt : c < '0' := not_le.mp h
      have hf : jsLe "0".data [c] = false := by
        show (!jsLt [c] ['0']) = false
        rw [jsLt_single, if_pos hlt]
        rfl
      rw [hf] at h1
      exact Bool.false_ne_true h1.1
    · have hlt : '9' < c := not_le.mp h
      have hf : jsLe [c] "9".data = false := by
        show (!jsLt ['9'] [c]) = false
        rw [jsLt_single, if_pos hlt]
        rfl
      rw [hf] at h1
      exact Bool.false_ne_true h1.2
  · exfalso
    have h2x : [c] = ['.'] := h2
    injection h2x with hx
    exact hnotin (by simp [hx])
  · exfalso
    rcases h3 with h3 | h3
    · have h3x : [c] = ['='] := h3
      injection h3x with hx
      exact hnotin (by simp [hx])
    · have h3x : [c] = ['E', 'n', 't', 'e', 'r'] := h3
      simp at h3x
  · exfalso
    have h4x : [c] = ['B', 'a', 'c', 'k', 's', 'p', 'a', 'c', 'e'] := h4
    simp at h4x
  · exfalso
    have h5x : [c] = ['E', 's', 'c', 'a', 'p', 'e'] := h5
    simp at h5x
  · exact absurd h6 (fun h => single_op_contra hnotin h)
  · exact absurd h6 (fun h => single_op_contra hnotin h)
  · rfl

theorem handleKeyDown_named {c : Char} {t : Str} (ht : t ≠ []) (hA : 'A' ≤ c)
    (h1e : c :: t ≠ "Enter".data) (h2b : c :: t ≠ "Backspace".data)
    (h3e : c :: t ≠ "Escape".data) (s : CalcState) :
    handleKeyDown (c :: t) s = s := by
  rw [handleKeyDown]
  split_ifs with h1 h2 h3 h4 h5
  · exfalso
    rw [Bool.and_eq_true] at h1
    have hf : jsLe (c :: t) "9".data = false := by
      show (!jsLt ['9'] (c :: t)) = false
      rw [jsLt_nine_of_upper hA]
      rfl
    rw [hf] at h1
    exact Bool.false_ne_true h1.2
  · exfalso
    have h2x : c :: t = ['.'] := h2
    injection h2x with hx htx
    exact ht htx
  · exfalso
    rcases h3 with h3 | h3
    · have h3x : c :: t = ['='] := h3
      injection h3x with hx htx
      exact ht htx
    · exact h1e h3
  · exact absurd h4 (fun h => named_op_contra ht h)
  · exact absurd h4 (fun h => named_op_contra ht h)
  · rfl

/-- Claim C8: the keyboard adapter maps digit keys and `.` to `appendNumber`,
`Enter` and `=` to `compute`, `Backspace` to `deleteNumber`, `Escape` to
`clear`, the three operator characters to `chooseOperation`, `/` to
`chooseOperation "÷"`, and leaves the state unchanged on every other key. -/
theorem c8_keyboard_adapter :
    ∀ s : CalcState,
      (∀ d ∈ digitKeys, handleKeyDown d s = appendNumber d s) ∧
      handleKeyDown ['.'] s = appendNumber ['.'] s ∧
      handleKeyDown "Enter".data s = compute s ∧
      handleKeyDown ['='] s = compute s ∧
      handleKeyDown "Backspace".data s = deleteNumber s ∧
      handleKeyDown "Escape".data s = clear s ∧
      handleKeyDown ['+'] s = chooseOperation ['+'] s ∧
      handleKeyDown ['-'] s = chooseOperation ['-'] s ∧
      handleKeyDown ['*'] s = chooseOperation ['*'] s ∧
      handleKeyDown ['/'] s = chooseOperation ['÷'] s ∧
      (∀ k : Str, OtherKey k → handleKeyDown k s = s) := by
  intro s
  refine ⟨?_, rfl, rfl, rfl, rfl, rfl, rfl, rfl, rfl, rfl, ?_⟩
  · intro d hd
    fin_cases hd <;> rfl
  · intro k hk
    rcases hk with ⟨c, rfl, hno, hnotin⟩ | ⟨c, t, rfl, ht, hA, -, h1, h2, h3⟩
    · exact handleKeyDown_other_single hno hnotin s
    · exact handleKeyDown_named ht hA h1 h2 h3 s

/-- Claim C8, witness: the digit key 7 appends, while the unhandled keys `a`
and `Shift` leave the mount state unchanged. -/
theorem c8_witness_keyboard :
    handleKeyDown ['7'] initState = appendNumber ['7'] initState ∧
    handleKeyDown ['a'] initState = initState ∧
    handleKeyDown "Shift".data initState = initState := by
  obtain ⟨hd, -, -, -, -, -, -, -, -, -, hother⟩ := c8_keyboard_adapter initState
  refine ⟨hd ['7'] (by decide), hother ['a'] (Or.inl ⟨'a', rfl, by decide, by decide⟩),
    hother "Shift".data (Or.inr ⟨'S', "hift".data, rfl, by decide, by decide, by decide,
      by decide, by decide, by decide⟩)⟩

/-! ### Formatting claim C9 and division claim C10 -/

theorem dropWhile_head_false {p : Char → Bool} :
    ∀ {l : Str} {c : Char} {t : Str}, l.dropWhile p = c :: t → p c = false := by
  intro l
  induction l with
  | nil =>
    intro c t h
    simp at h
  | cons a as ih =>
    intro c t h
    rw [List.dropWhile_cons] at h
    by_cases hp : p a
    · rw [if_pos hp] at h
      exact ih h
    · rw [if_neg hp] at h
      injection h with h1 h2
      subst h1
      simpa using hp

/-- Claim C9, counterexample: the lone-dot operand is reachable, and the
formatter renders it as "NaN." (its empty integer part parses as NaN and
`Intl.NumberFormat` prints NaN), not as the integer-part rendering "." the
claim describes. -/
theorem c9_counterexample_dot_operand :
    Reachable dotOperandState ∧
    dotOperandState.currentOperand = ['.'] ∧
    formatOperand ['.'] = some "NaN.".data ∧
    specFormatOperand ['.'] = some ['.'] ∧
    ("NaN.".data : Str) ≠ ['.'] :=
  ⟨reachable_dotOperandState, by decide, by decide, by decide, by decide⟩

/-- Claim C9, amended: for every non-empty operand with at most one decimal
point whose integer part is a non-empty digit string of at most 15 digits,
the formatter renders the integer part with thousands separators and, when a
decimal point is present, appends the decimal digits verbatim; the reachable
operand "." instead renders as "NaN.".  The length bound keeps the statement
within the range where the runtime's `parseFloat` is exact: a 15-digit value
is below `2^53`, so the double-precision runtime parses it to exactly the
value the model gives, whereas for 16 or more digits the program displays the
double-rounded value and the claim does not hold verbatim. -/
theorem c9_amended_format_digit_operand :
    ∀ operand : Str, operand ≠ [] → operand.count '.' ≤ 1 →
      operand.takeWhile (fun c => c != '.') ≠ [] →
      (∀ c ∈ operand.takeWhile (fun c => c != '.'), isDigitChar c = true) →
      (operand.takeWhile (fun c => c != '.')).length ≤ 15 →
      formatOperand operand = specFormatOperand operand := by
  intro l hne hcount hint hdig _hlen
  have hparse := parseFloat_digits hint hdig
  have hfmt : intlFormat (parseFloat (l.takeWhile (fun c => c != '.')))
      = specIntRender (l.takeWhile (fun c => c != '.')) := by
    rw [hparse, intlFormat_natCast, specIntRender, if_neg hint]
  rw [formatOperand, specFormatOperand, if_neg hne, if_neg hne]
  cases hsplit : l.dropWhile (fun c => c != '.') with
  | nil =>
    show some (intlFormat (parseFloat (l.takeWhile (fun c => c != '.'))))
        = some (specIntRender (l.takeWhile (fun c => c != '.')))
    rw [hfmt]
  | cons c tail =>
    have hc : c = '.' := by
      have := dropWhile_head_false hsplit
      simpa using this
    subst hc
    show some (intlFormat (parseFloat (l.takeWhile (fun c => c != '.'))) ++
          '.' :: tail.takeWhile (fun c => c != '.'))
        = some (specIntRender (l.takeWhile (fun c => c != '.')) ++ '.' :: tail)
    have htail : tail.takeWhile (fun c => c != '.') = tail := by
      apply List.takeWhile_eq_self_iff.mpr
      intro x hx
      have hdec : (l.takeWhile (fun c => c != '.')).count '.' +
          (l.dropWhile (fun c => c != '.')).count '.' = l.count '.' := by
        rw [← List.count_append, List.takeWhile_append_dropWhile]
      have htw0 : (l.takeWhile (fun c => c != '.')).count '.' = 0 := by
        rw [List.count_eq_zero]
        intro hm
        have := List.mem_takeWhile_imp hm
        simp at this
      rw [hsplit, htw0, List.count_cons_self] at hdec
      have htz : tail.count '.' = 0 := by omega
      have hxne : x ≠ '.' := by
        intro he
        subst he
        exact absurd hx (List.count_eq_zero.mp htz)
      simp [hxne]
    rw [htail, hfmt]

/-- Claim C9, witness: the amended statement evaluated on the operand
"1234.500", which renders with a thousands separator and its decimal digits
unchanged. -/
theorem c9_witness_format :
    formatOperand "1234.500".data = specFormatOperand "1234.500".data ∧
    specFormatOperand "1234.500".data = some "1,234.500".data :=
  ⟨c9_amended_format_digit_operand "1234.500".data (by decide) (by decide)
      (by decide) (by decide) (by decide),
    by decide⟩

/-- Claim C10: division by zero is not guarded: whenever the previous operand
parses to a positive value, the operation is `÷`, and the current operand is
"0", `compute` stores the string "Infinity", clears the previous operand and
the operation, and sets the overwrite flag. -/
theorem c10_division_by_zero_infinity :
    ∀ (s : CalcState) (q : Q),
      parseFloat s.previousOperand = JSNum.num q → 0 < q.num →
      s.operation = some ['÷'] → s.currentOperand = ['0'] →
      compute s = ⟨"Infinity".data, [], none, true⟩ := by
  intro s q h1 h2 h3 h4
  have hq0 : ¬ q.num = 0 := by omega
  have hqn : ¬ q.num < 0 := by omega
  have h5 : parseFloat s.currentOperand = JSNum.num ⟨0, 1⟩ := by
    rw [h4]
    decide
  have hdiv : jsDiv (JSNum.num q) (JSNum.num ⟨0, 1⟩) = JSNum.inf false := by
    simp [jsDiv, hq0, hqn]
  have happ : applyOperation (some ['÷']) (JSNum.num q) (JSNum.num ⟨0, 1⟩)
      = some (jsDiv (JSNum.num q) (JSNum.num ⟨0, 1⟩)) := rfl
  rw [compute, h1, h5, h3]
  rw [if_neg (by simp [JSNum.isNaN])]
  rw [happ, hdiv]
  rfl

/-- Claim C10, witness: the state 0 ÷-pending 2 over "0" computes to
"Infinity". -/
theorem c10_witness_division_by_zero :
    parseFloat (⟨['0'], ['2'], some ['÷'], false⟩ : CalcState).previousOperand
      = JSNum.num ⟨2, 1⟩ ∧
    compute ⟨['0'], ['2'], some ['÷'], false⟩ = ⟨"Infinity".data, [], none, true⟩ :=
  ⟨by decide,
    c10_division_by_zero_infinity ⟨['0'], ['2'], some ['÷'], false⟩ ⟨2, 1⟩
      (by decide) (by decide) rfl rfl⟩

end Calculator

